import Mathlib

/-!
Shallow embedding of the Sovgut/datagrid state-transition core:
the command reducers (`src/src/reducer/DataGridReducer.ts` and the
single-command variant in `src/unnamed/part_015`), the filter sanitizer
(`src/src/utils/cleanSense.ts`), the change detector
(`src/unnamed/part_000`, `extractChangedKey`), the debounce scheduler
(`src/src/utils/debounce.ts`) and the pagination helpers of the DataGrid
component (`src/unnamed/part_005`..`part_007`).

JavaScript `null` and `undefined` on optional state fields are both
modelled as `Option.none` (the reducers and helpers under study never
distinguish them on those fields); filter-map values keep `null` and
`undefined` as distinct constructors because the sanitizer passes do
distinguish them.
-/

namespace Datagrid

/-- An element of an array stored in a filter map: a string, the `null` or
`undefined` sentinel, or any other value.  The sanitizer passes only ever
compare elements against the three sentinels with strict equality and never
recurse into them, so every non-sentinel non-string element (numbers,
objects, nested arrays) is behaviorally opaque and is modelled by `num`. -/
inductive FilterElem where
  | str (s : String)
  | null
  | undefined
  | num (n : Int)
deriving DecidableEq, Repr

/-- Values a filter map entry can hold: strings, the `null` and `undefined`
sentinels, arrays (top-level element list) and other opaque values
(modelled by `num`).  Mirrors the `unknown` values a
`Record<string, unknown>` filter object carries in the source. -/
inductive FilterValue where
  | str (s : String)
  | null
  | undefined
  | num (n : Int)
  | arr (elems : List FilterElem)
deriving DecidableEq, Repr

/-- A filter object: insertion-ordered association list of string keys to
values, mirroring a JS object with unique keys. -/
abbrev FilterMap := List (String × FilterValue)

/-!
FilterSanitizer — `src/src/utils/cleanSense.ts` (variant also in
`src/unnamed/part_001`).  Each static method walks the entries of the
object; for its sentinel it deletes a key whose value is exactly the
sentinel and filters the sentinel out of top-level array values.  The
source mutates in place over a snapshot of the entries; the pure
translation rebuilds the list entry by entry.  The source only rewrites an
array value when it actually contains the sentinel
(`value.includes(...)`), which the conditional below mirrors.
-/

/-- One sentinel-removal pass, parametrized by the scalar sentinel `sv`
(deletes keys whose value is exactly `sv`) and the array-element sentinel
`se` (filtered out of top-level array values). -/
def cleanPass (sv : FilterValue) (se : FilterElem) : FilterMap → FilterMap
  | [] => []
  | (k, v) :: rest =>
    if v = sv then cleanPass sv se rest
    else
      match v with
      | .arr es =>
          (k, .arr (if es.contains se then es.filter (fun e => e != se) else es)) ::
            cleanPass sv se rest
      | _ => (k, v) :: cleanPass sv se rest

/-- CleanSense.string: removes empty-string values and filters empty
strings out of array values. -/
def CleanSense.string : FilterMap → FilterMap :=
  cleanPass (.str "") (.str "")

/-- CleanSense.null: removes null values and filters nulls out of array
values. -/
def CleanSense.null : FilterMap → FilterMap :=
  cleanPass .null .null

/-- CleanSense.undefined: removes undefined values and filters undefined
out of array values. -/
def CleanSense.undefined : FilterMap → FilterMap :=
  cleanPass .undefined .undefined

/-- CleanSense.array: removes keys whose value is an empty array. -/
def CleanSense.array : FilterMap → FilterMap
  | [] => []
  | (k, v) :: rest =>
    if v = FilterValue.arr [] then CleanSense.array rest
    else (k, v) :: CleanSense.array rest

/-- The four passes in the order the DataGrid effect applies them with all
cleaning flags on (`src/unnamed/part_005`, onChange effect):
CleanSense.null, CleanSense.undefined, CleanSense.string,
CleanSense.array. -/
def sanitizeFilter (m : FilterMap) : FilterMap :=
  CleanSense.array (CleanSense.string (CleanSense.undefined (CleanSense.null m)))

/-- An entry value already clean for a sentinel pass: not the scalar
sentinel, and, when an array, free of the element sentinel. -/
def entryClean (sv : FilterValue) (se : FilterElem) (v : FilterValue) : Bool :=
  (v != sv) &&
  (match v with
   | .arr es => !(es.contains se)
   | _ => true)

/-!
CommandReducer — the command enumeration (`src/src/enums.ts`) and the two
reducer variants: the commands-set reducer of
`src/src/reducer/DataGridReducer.ts` and the single-command reducer of
`src/unnamed/part_015`.
-/

/-- The commands of `src/src/enums.ts` (DataGridCommand). -/
inductive DataGridCommand where
  | SetPage
  | SetLimit
  | SetSort
  | SetOrder
  | SetFilter
  | ReplaceFilter
  | RemoveFilter
  | ClearFilter
  | ClearSort
  | ClearOrder
  | ClearAll
  | ToggleOrder
deriving DecidableEq, Repr

/-- Sort direction constants SORT_ASC / SORT_DESC. -/
inductive SortOrder where
  | asc
  | desc
deriving DecidableEq, Repr

/-- DEFAULT_PAGE of `src/src/constants.ts`. -/
def DEFAULT_PAGE : Int := 1

/-- DEFAULT_LIMIT of `src/src/constants.ts`. -/
def DEFAULT_LIMIT : Int := 10

/-- JS object spread `{ ...a, ...b }` on filter maps: keys of `a` in
insertion order with values overridden by `b` where present, then keys of
`b` not in `a`, in the order of `b`. -/
def mergeFilter (a b : FilterMap) : FilterMap :=
  a.map (fun kv =>
    match b.find? (fun kv2 => kv2.1 == kv.1) with
    | some kv2 => (kv.1, kv2.2)
    | none => kv) ++
  b.filter (fun kv2 => !(a.any (fun kv => kv.1 == kv2.1)))

/-- State shape of the commands-set reducer
(`src/src/reducer/DataGridReducer.ts`): all query fields optional, plus
the list of commands that produced the state.  JS `null`/`undefined` on a
field are both `none`. -/
structure DataGridState where
  page : Option Int := none
  limit : Option Int := none
  sort : Option String := none
  order : Option SortOrder := none
  filter : Option FilterMap := none
  commands : Option (List DataGridCommand) := none
deriving DecidableEq, Repr

/-- Actions have the same shape as the state in the source. -/
abbrev DataGridAction := DataGridState

/-- The page-resetting command set built inside the commands-set reducer. -/
def pageResettingCommands : List DataGridCommand :=
  [.SetLimit, .SetSort, .SetOrder, .ToggleOrder, .ReplaceFilter, .ClearFilter,
   .ClearOrder, .ClearSort]

/-- One arm of the switch in the commands-set reducer, applied per command
by the forEach loop.  `ClearAll` has no case and falls to the default
branch, leaving the state untouched. -/
def applyCommand (action : DataGridAction) (clone : DataGridState) :
    DataGridCommand → DataGridState
  | .SetPage => { clone with page := action.page }
  | .SetLimit => { clone with limit := action.limit }
  | .SetSort => { clone with sort := action.sort }
  | .SetOrder => { clone with order := action.order }
  | .ToggleOrder => { clone with order := action.order }
  | .SetFilter =>
      { clone with filter := some (mergeFilter (clone.filter.getD []) (action.filter.getD [])) }
  | .RemoveFilter =>
      { clone with filter := some (mergeFilter (clone.filter.getD []) (action.filter.getD [])) }
  | .ReplaceFilter => { clone with filter := action.filter }
  | .ClearFilter => { clone with filter := some [] }
  | .ClearOrder => { clone with order := none }
  | .ClearSort => { clone with sort := none }
  | .ClearAll => clone

/-- The commands-set reducer of `src/src/reducer/DataGridReducer.ts`:
clones the state (structuredClone is the identity on pure values), records
the commands, returns early when there are none, applies each command via
the switch, and finally resets `page` to DEFAULT_PAGE when any dispatched
command is in the page-resetting set. -/
def DataGridReducer (state : DataGridState) (action : DataGridAction) :
    DataGridState :=
  let clone := { state with commands := action.commands }
  match action.commands with
  | none => clone
  | some [] => clone
  | some cmds =>
      let shouldResetPage := cmds.any (fun c => pageResettingCommands.contains c)
      let stepped := cmds.foldl (fun st c => applyCommand action st c) clone
      if shouldResetPage then { stepped with page := some DEFAULT_PAGE } else stepped

/-- State shape of the single-command reducer (`src/unnamed/part_015`):
query fields plus a single optional command tag. -/
structure SingleState where
  page : Option Int := none
  limit : Option Int := none
  sort : Option String := none
  order : Option SortOrder := none
  filter : Option FilterMap := none
  command : Option DataGridCommand := none
deriving DecidableEq, Repr

/-- The shouldResetPage ||-chain of `src/unnamed/part_015`. -/
def singleResets (c : Option DataGridCommand) : Bool :=
  c == some .SetLimit || c == some .SetSort || c == some .SetOrder ||
  c == some .ToggleOrder || c == some .ReplaceFilter || c == some .ClearFilter ||
  c == some .ClearOrder || c == some .ClearSort

/-- The single-command reducer of `src/unnamed/part_015`: switch on the
command, then, for page-resetting commands, set `page` to the
caller-supplied `action.page` (the comment in the source notes the initial
page is assumed to be passed in the action).  `ClearAll` has no case and
leaves the state untouched. -/
def DataGridReducerSingle (state : SingleState) (action : SingleState) :
    SingleState :=
  let clone := { state with command := action.command }
  let shouldResetPage := singleResets action.command
  let stepped :=
    match action.command with
    | some .SetPage => { clone with page := action.page }
    | some .SetLimit => { clone with limit := action.limit }
    | some .SetSort => { clone with sort := action.sort }
    | some .SetOrder => { clone with order := action.order }
    | some .ToggleOrder => { clone with order := action.order }
    | some .SetFilter =>
        { clone with filter := some (mergeFilter (clone.filter.getD []) (action.filter.getD [])) }
    | some .RemoveFilter =>
        { clone with filter := some (mergeFilter (clone.filter.getD []) (action.filter.getD [])) }
    | some .ReplaceFilter => { clone with filter := action.filter }
    | some .ClearFilter => { clone with filter := some [] }
    | some .ClearOrder => { clone with order := none }
    | some .ClearSort => { clone with sort := none }
    | _ => clone
  if shouldResetPage then { stepped with page := action.page } else stepped

/-!
DebounceScheduler — `src/src/utils/debounce.ts`.  The source keeps ONE
module-level `DEBOUNCE_HASH_MAP` shared by every caller in the process;
`debounce(key, callback, delay)` clears any pending timer for `key`, then
sets a timer that, on fire, runs the callback and deletes the map entry.

The embedding tracks the pending timers (each pending timer corresponds
exactly to one live map entry, since `debounce` always replaces both
together and a fire removes both together) and a log of fired callbacks.
Callbacks are opaque labels (`Nat`); the log records (fire time, label).
Due timers are fired in creation order; every theorem below only involves
traces in which at most one timer is pending at any moment, where that
choice is immaterial.
-/

/-- A pending timer: the map key it is registered under, its absolute fire
time, and the callback label it will invoke. -/
structure PendingTimer where
  key : String
  fireAt : Nat
  cb : Nat
deriving DecidableEq, Repr

/-- The state of the (module-global) debounce scheduler: live timers (the
key-to-timer map) and the log of fired callbacks in fire order. -/
structure DebounceState where
  pending : List PendingTimer
  fired : List (Nat × Nat)
deriving DecidableEq, Repr

/-- The body of `debounce(key, callback, delay)` called at absolute time
`now`: clearTimeout of the pending timer for `key` (if any), then
`map.set(key, setTimeout(..., delay))`. -/
def debounce (key : String) (cb : Nat) (delay : Nat) (now : Nat)
    (s : DebounceState) : DebounceState :=
  { s with pending := s.pending.filter (fun e => e.key != key) ++ [⟨key, now + delay, cb⟩] }

/-- Event-loop progress up to time `t`: every timer due at or before `t`
fires (callback runs, map entry removed). -/
def fireDue (t : Nat) (s : DebounceState) : DebounceState :=
  { pending := s.pending.filter (fun e => !(decide (e.fireAt ≤ t))),
    fired := s.fired ++ (s.pending.filter (fun e => decide (e.fireAt ≤ t))).map
      (fun e => (e.fireAt, e.cb)) }

/-- Run the event loop to quiescence: all remaining timers fire at their
scheduled times. -/
def flushAll (s : DebounceState) : DebounceState :=
  { pending := [], fired := s.fired ++ s.pending.map (fun e => (e.fireAt, e.cb)) }

/-- One call to `debounce` arriving on the event loop. -/
structure ScheduleCall where
  time : Nat
  key : String
  cb : Nat
  delay : Nat
deriving DecidableEq, Repr

/-- Process a time-ordered list of `debounce` calls against the shared
scheduler state: before each call, timers already due have fired; after
the last call the loop runs to quiescence. -/
def runSchedules : List ScheduleCall → DebounceState → DebounceState
  | [], s => flushAll s
  | c :: rest, s => runSchedules rest (debounce c.key c.cb c.delay c.time (fireDue c.time s))

/-- A same-key trace: calls (time, callback label) all for key `k` with
delay `d`. -/
def sameKeyTrace (k : String) (d : Nat) (calls : List (Nat × Nat)) :
    List ScheduleCall :=
  calls.map (fun c => ⟨c.1, k, c.2, d⟩)

/-- Times are nondecreasing and each call arrives strictly before the
timer of the previous call would fire. -/
def wellSpaced (d : Nat) : List (Nat × Nat) → Bool
  | a :: b :: rest =>
      (decide (a.1 ≤ b.1) && decide (b.1 < a.1 + d)) && wellSpaced d (b :: rest)
  | _ => true

/-!
ChangeDetector — `extractChangedKey` of `src/unnamed/part_000` (two
equivalent variants in that file).  It walks the keys of `next` in
insertion order; when `previous` is `undefined` the first key is returned;
when both values are arrays a length difference or a non-identical
reference (`Object.is`) is a change; otherwise strict inequality (`!==`)
is a change.

Array values are modelled by their reference identity (`id`) and length,
the only two observations the function makes of them; all other values are
compared structurally, which is what `===` does on the primitives the
filter maps carry.
-/

/-- A value of the dependency objects handed to `extractChangedKey`:
primitives compared with `===`, or an array carrying its reference
identity and length. -/
inductive DepValue where
  | num (n : Int)
  | str (s : String)
  | null
  | undefined
  | arr (id : Nat) (len : Nat)
deriving DecidableEq, Repr

/-- An insertion-ordered JS object of dependency values. -/
abbrev DepMap := List (String × DepValue)

/-- JS strict equality `===` on dependency values: structural on
primitives (no coercion, so cross-type comparison is false and
`null !== undefined`), reference identity on arrays. -/
def strictEq : DepValue → DepValue → Bool
  | .num a, .num b => a == b
  | .str a, .str b => a == b
  | .null, .null => true
  | .undefined, .undefined => true
  | .arr i _, .arr j _ => i == j
  | _, _ => false

/-- JS property access `obj[key]`: the stored value, or `undefined` when
the key is absent. -/
def getProp (m : DepMap) (k : String) : DepValue :=
  match m.find? (fun kv => kv.1 == k) with
  | some kv => kv.2
  | none => .undefined

/-- The for-in loop body of `extractChangedKey` over the keys of `next`,
with `prev` present.  When both values are arrays: differing length, or
failing `Object.is` (identity), returns the key; the subsequent `!==`
check is then redundant because identical references are strictly equal.
Otherwise the `!==` check decides. -/
def extractChangedKeyGo (prev : DepMap) : DepMap → Option String
  | [] => Option.none
  | (k, v) :: rest =>
    match getProp prev k, v with
    | .arr i l1, .arr j l2 =>
        if l1 != l2 then some k
        else if i != j then some k
        else extractChangedKeyGo prev rest
    | pv, nv => if strictEq pv nv then extractChangedKeyGo prev rest else some k

/-- `extractChangedKey([prev, next])` of `src/unnamed/part_000`: when
`prev` is `undefined` the first iteration returns the first key of `next`
(or null when `next` has no keys); otherwise the loop above runs. -/
def extractChangedKey : Option DepMap → DepMap → Option String
  | Option.none, next => next.head?.map (fun kv => kv.1)
  | some prev, next => extractChangedKeyGo prev next

/-- Modelled from the claim wording for comparison with the source: a
value counts as changed when both sides are arrays of differing length or
non-identical reference, and otherwise when the two values are not
strictly equal. -/
def specChangedValue (pv nv : DepValue) : Bool :=
  match pv, nv with
  | .arr i l1, .arr j l2 => (l1 != l2) || (i != j)
  | _, _ => !(strictEq pv nv)

/-!
Pagination helpers and imperative operations of the DataGrid component.
`src/unnamed/part_005` computes `hasNextPage` as
`(state.page ?? initialPage) * (state.limit ?? initialLimit) < size`;
`src/unnamed/part_006` and `src/unnamed/part_007` compute it as
`(state.page ?? initialPage) < size`.  All three variants compute
`hasPrevPage` as `(state.page ?? initialPage) > 1`.  `nextPage` /
`prevPage` dispatch SetPage only when the corresponding guard holds.
The dispatched actions are reduced with the single-command reducer.
-/

/-- hasNextPage of `src/unnamed/part_005`. -/
def hasNextPage (page limit : Option Int) (initialPage initialLimit size : Int) : Bool :=
  decide ((page.getD initialPage) * (limit.getD initialLimit) < size)

/-- hasNextPage of `src/unnamed/part_006` / `src/unnamed/part_007`. -/
def hasNextPageAlt (page : Option Int) (initialPage size : Int) : Bool :=
  decide ((page.getD initialPage) < size)

/-- hasPrevPage (identical in all three component variants). -/
def hasPrevPage (page : Option Int) (initialPage : Int) : Bool :=
  decide ((page.getD initialPage) > 1)

/-- setPage: dispatches a SetPage action carrying only the new page. -/
def setPageOp (p : Int) (s : SingleState) : SingleState :=
  DataGridReducerSingle s { command := some .SetPage, page := some p }

/-- nextPage of `src/unnamed/part_005`: dispatches SetPage((page ??
initialPage) + 1) only when hasNextPage() holds. -/
def nextPageOp (initialPage initialLimit size : Int) (s : SingleState) : SingleState :=
  if hasNextPage s.page s.limit initialPage initialLimit size then
    setPageOp (s.page.getD initialPage + 1) s
  else s

/-- prevPage of `src/unnamed/part_005`: dispatches SetPage((page ??
initialPage) - 1) only when hasPrevPage() holds. -/
def prevPageOp (initialPage : Int) (s : SingleState) : SingleState :=
  if hasPrevPage s.page initialPage then
    setPageOp (s.page.getD initialPage - 1) s
  else s

/-- The next order computed by toggleOrder:
`order === "asc" ? "desc" : order === "desc" ? null : "asc"`. -/
def nextOrderOf : Option SortOrder → Option SortOrder
  | some .asc => some .desc
  | some .desc => Option.none
  | _ => some .asc

/-- toggleOrder of `src/unnamed/part_005`: dispatches ToggleOrder with the
cycled order and the page-reset payload
(`resetPageOnQueryChange ? initialPage : state.page`). -/
def toggleOrderOp (resetPageOnQueryChange : Bool) (initialPage : Int)
    (s : SingleState) : SingleState :=
  DataGridReducerSingle s
    { command := some .ToggleOrder,
      order := nextOrderOf s.order,
      page := if resetPageOnQueryChange then some initialPage else s.page }

/-! ## Helper lemmas (shared; not claim theorems) -/

/-- toggleOrder unfolds to cycling the order, recording the command, and
carrying the page-reset payload. -/
theorem toggleOrderOp_eq (rp : Bool) (ip : Int) (s : SingleState) :
    toggleOrderOp rp ip s =
      { s with order := nextOrderOf s.order,
               page := if rp then some ip else s.page,
               command := some DataGridCommand.ToggleOrder } := rfl

/-- setPage unfolds to setting the page and recording the command. -/
theorem setPageOp_eq (p : Int) (s : SingleState) :
    setPageOp p s = { s with page := some p, command := some DataGridCommand.SetPage } := rfl

/-- One iteration of the extractChangedKey loop: the nested array checks
and the strict-equality check amount to testing specChangedValue. -/
theorem extractChangedKeyGo_cons (prev : DepMap) (k : String) (v : DepValue) (tl : DepMap) :
    extractChangedKeyGo prev ((k, v) :: tl) =
      if specChangedValue (getProp prev k) v = true then some k
      else extractChangedKeyGo prev tl := by
  cases hgp : getProp prev k <;> cases v <;>
    simp only [extractChangedKeyGo, specChangedValue, strictEq, hgp] <;>
    (try simp) <;>
    (try (split_ifs <;> simp_all))

/-- The loop of extractChangedKey returns exactly the first key of next
(in insertion order) whose value differs per specChangedValue. -/
theorem extractChangedKeyGo_eq_find (prev : DepMap) (next : DepMap) :
    extractChangedKeyGo prev next =
      (next.find? (fun kv => specChangedValue (getProp prev kv.1) kv.2)).map (fun kv => kv.1) := by
  induction next with
  | nil => rfl
  | cons hd tl ih =>
      obtain ⟨k, v⟩ := hd
      rw [extractChangedKeyGo_cons, List.find?_cons]
      by_cases hc : specChangedValue (getProp prev k) v = true
      · simp [hc]
      · have hf : specChangedValue (getProp prev k) v = false := by
          revert hc
          cases specChangedValue (getProp prev k) v <;> simp
        simp [hf, ih]

/-- Any key the change detector reports is a key of next: keys removed
from next relative to previous are never reported. -/
theorem extractChangedKey_key_mem (prev next : DepMap) :
    (extractChangedKey (some prev) next).all
      (fun k => (next.map Prod.fst).contains k) = true := by
  have h : extractChangedKey (some prev) next = extractChangedKeyGo prev next := rfl
  rw [h, extractChangedKeyGo_eq_find]
  cases hf : next.find? (fun kv => specChangedValue (getProp prev kv.1) kv.2) with
  | none => rfl
  | some kv =>
      have hm := List.mem_of_find?_eq_some hf
      show (next.map Prod.fst).contains kv.1 = true
      exact List.elem_eq_true_of_mem (List.mem_map_of_mem Prod.fst hm)

/-- Boolean contains is false exactly when the element is absent. -/
theorem contains_eq_false_iff (es : List FilterElem) (se : FilterElem) :
    es.contains se = false ↔ ¬ se ∈ es := by
  constructor
  · intro h hmem
    have h2 : es.contains se = true := List.elem_iff.mpr hmem
    rw [h] at h2
    cases h2
  · intro h
    cases hc : es.contains se
    · rfl
    · exact absurd (List.elem_iff.mp hc) h

/-- The conditional array rewrite of a sentinel pass is extensionally a
plain filter: when the sentinel is absent, filtering it out is the
identity. -/
theorem condFilter_eq (se : FilterElem) (es : List FilterElem) :
    (if es.contains se then es.filter (fun e => e != se) else es) =
      es.filter (fun e => e != se) := by
  by_cases h : es.contains se = true
  · rw [if_pos h]
  · have hf : es.contains se = false := by
      revert h
      cases es.contains se <;> simp
    have hn : ¬ se ∈ es := (contains_eq_false_iff es se).mp hf
    rw [if_neg h]
    refine (List.filter_eq_self.mpr ?_).symm
    intro e he
    exact bne_iff_ne.mpr (fun heq => hn (heq ▸ he))

/-- Filtering a sentinel out leaves a list not containing it. -/
theorem filter_ne_not_contains (se : FilterElem) (es : List FilterElem) :
    (es.filter (fun e => e != se)).contains se = false := by
  refine (contains_eq_false_iff _ _).mpr ?_
  intro hmem
  have := List.of_mem_filter hmem
  simp at this

/-- Any filtering preserves the absence of a sentinel. -/
theorem filter_not_contains_of (se : FilterElem) (p : FilterElem → Bool)
    (es : List FilterElem) (h : es.contains se = false) :
    (es.filter p).contains se = false := by
  refine (contains_eq_false_iff _ _).mpr ?_
  intro hmem
  exact (contains_eq_false_iff es se).mp h (List.mem_of_mem_filter hmem)

/-- A sentinel pass drops an entry holding exactly the scalar sentinel. -/
theorem cleanPass_cons_sent (sv : FilterValue) (se : FilterElem) (k : String)
    (rest : FilterMap) :
    cleanPass sv se ((k, sv) :: rest) = cleanPass sv se rest := by
  simp [cleanPass]

/-- A sentinel pass rewrites an array entry to its filtered elements. -/
theorem cleanPass_cons_arr (sv : FilterValue) (se : FilterElem) (k : String)
    (es : List FilterElem) (rest : FilterMap) (hsv : FilterValue.arr es ≠ sv) :
    cleanPass sv se ((k, FilterValue.arr es) :: rest) =
      (k, FilterValue.arr (es.filter (fun e => e != se))) :: cleanPass sv se rest := by
  simp only [cleanPass, if_neg hsv]
  rw [condFilter_eq]

/-- A sentinel pass keeps any non-array entry that is not the scalar
sentinel. -/
theorem cleanPass_cons_other (sv : FilterValue) (se : FilterElem) (k : String)
    (v : FilterValue) (rest : FilterMap) (hv : v ≠ sv)
    (hna : ∀ es, v ≠ FilterValue.arr es) :
    cleanPass sv se ((k, v) :: rest) = (k, v) :: cleanPass sv se rest := by
  cases v
  case arr es => exact absurd rfl (hna es)
  all_goals simp [cleanPass, hv]

/-- Every entry a sentinel pass emits is either an input entry or the
filtered-array rewrite of an input array entry. -/
theorem cleanPass_mem (sv : FilterValue) (se : FilterElem) (m : FilterMap) :
    ∀ kv ∈ cleanPass sv se m,
      kv ∈ m ∨ ∃ k es, (k, FilterValue.arr es) ∈ m ∧
        kv = (k, FilterValue.arr (es.filter (fun e => e != se))) := by
  induction m with
  | nil =>
      intro kv h
      simp [cleanPass] at h
  | cons hd tl ih =>
      intro kv h
      obtain ⟨k, v⟩ := hd
      by_cases hv : v = sv
      · subst hv
        rw [cleanPass_cons_sent] at h
        rcases ih kv h with hm | ⟨k2, es, hmem, hkv⟩
        · exact Or.inl (List.mem_cons_of_mem _ hm)
        · exact Or.inr ⟨k2, es, List.mem_cons_of_mem _ hmem, hkv⟩
      · cases v
        all_goals try
          (rw [cleanPass_cons_other sv se k _ tl hv
              (fun es2 h2 => FilterValue.noConfusion h2)] at h
           rcases List.mem_cons.mp h with rfl | htl
           · exact Or.inl (List.mem_cons_self _ _)
           · rcases ih kv htl with hm | ⟨k2, es2, hmem, hkv⟩
             · exact Or.inl (List.mem_cons_of_mem _ hm)
             · exact Or.inr ⟨k2, es2, List.mem_cons_of_mem _ hmem, hkv⟩)
        rename_i es
        rw [cleanPass_cons_arr sv se k es tl hv] at h
        rcases List.mem_cons.mp h with rfl | htl
        · exact Or.inr ⟨k, es, List.mem_cons_self _ _, rfl⟩
        · rcases ih kv htl with hm | ⟨k2, es2, hmem, hkv⟩
          · exact Or.inl (List.mem_cons_of_mem _ hm)
          · exact Or.inr ⟨k2, es2, List.mem_cons_of_mem _ hmem, hkv⟩

/-- Every entry a sentinel pass emits is clean for that pass, provided the
scalar sentinel is not itself an array. -/
theorem cleanPass_output_clean (sv : FilterValue) (se : FilterElem) (m : FilterMap)
    (hsv : ∀ es, sv ≠ FilterValue.arr es) :
    ∀ kv ∈ cleanPass sv se m, entryClean sv se kv.2 = true := by
  induction m with
  | nil =>
      intro kv h
      simp [cleanPass] at h
  | cons hd tl ih =>
      intro kv h
      obtain ⟨k, v⟩ := hd
      by_cases hv : v = sv
      · subst hv
        rw [cleanPass_cons_sent] at h
        exact ih kv h
      · cases v
        all_goals try
          (rw [cleanPass_cons_other sv se k _ tl hv
              (fun es2 h2 => FilterValue.noConfusion h2)] at h
           rcases List.mem_cons.mp h with rfl | htl
           · simp [entryClean, bne_iff_ne, hv]
           · exact ih kv htl)
        rename_i es
        rw [cleanPass_cons_arr sv se k es tl hv] at h
        rcases List.mem_cons.mp h with rfl | htl
        · simp [entryClean, bne_iff_ne, Ne.symm (hsv _), filter_ne_not_contains]
        · exact ih kv htl

/-- A sentinel pass preserves cleanliness for any other sentinel pass
whose scalar sentinel is not an array. -/
theorem cleanPass_preserves_clean (sv : FilterValue) (se : FilterElem)
    (sv2 : FilterValue) (se2 : FilterElem) (m : FilterMap)
    (hsv : ∀ es, sv ≠ FilterValue.arr es)
    (hm : ∀ kv ∈ m, entryClean sv se kv.2 = true) :
    ∀ kv ∈ cleanPass sv2 se2 m, entryClean sv se kv.2 = true := by
  intro kv h
  rcases cleanPass_mem sv2 se2 m kv h with hmem | ⟨k, es, hmem, rfl⟩
  · exact hm kv hmem
  · have hc := hm _ hmem
    simp only [entryClean, Bool.and_eq_true] at hc ⊢
    refine ⟨bne_iff_ne.mpr (Ne.symm (hsv _)), ?_⟩
    have h2 : es.contains se = false := by
      rcases hc with ⟨h1, h2⟩
      revert h2
      cases es.contains se <;> simp
    show (!((es.filter (fun e => e != se2)).contains se)) = true
    rw [filter_not_contains_of se _ es h2]
    rfl

/-- A sentinel pass is the identity on a map whose entries are already
clean for it. -/
theorem cleanPass_fixed (sv : FilterValue) (se : FilterElem) (m : FilterMap)
    (hm : ∀ kv ∈ m, entryClean sv se kv.2 = true) :
    cleanPass sv se m = m := by
  induction m with
  | nil => rfl
  | cons hd tl ih =>
      obtain ⟨k, v⟩ := hd
      have htl : cleanPass sv se tl = tl :=
        ih (fun kv h => hm kv (List.mem_cons_of_mem _ h))
      have hv := hm (k, v) (List.mem_cons_self _ _)
      cases v
      case arr es =>
          simp only [entryClean, Bool.and_eq_true, bne_iff_ne] at hv
          obtain ⟨h1, h2⟩ := hv
          have h3 : es.contains se = false := by
            revert h2
            cases es.contains se <;> simp
          rw [cleanPass_cons_arr sv se k es tl h1, htl]
          have hfe : es.filter (fun e => e != se) = es := by
            refine List.filter_eq_self.mpr ?_
            intro e he
            exact bne_iff_ne.mpr
              (fun heq => (contains_eq_false_iff es se).mp h3 (heq ▸ he))
          rw [hfe]
      all_goals
        simp only [entryClean, Bool.and_eq_true, bne_iff_ne] at hv
        rw [cleanPass_cons_other sv se k _ tl hv.1
          (fun es2 h2 => FilterValue.noConfusion h2), htl]

/-- The empty-array pass only removes entries. -/
theorem cleanArray_mem (m : FilterMap) :
    ∀ kv ∈ CleanSense.array m, kv ∈ m := by
  induction m with
  | nil =>
      intro kv h
      simp [CleanSense.array] at h
  | cons hd tl ih =>
      intro kv h
      obtain ⟨k, v⟩ := hd
      by_cases hv : v = FilterValue.arr []
      · rw [show CleanSense.array ((k, v) :: tl) = CleanSense.array tl from by
          simp [CleanSense.array, hv]] at h
        exact List.mem_cons_of_mem _ (ih kv h)
      · rw [show CleanSense.array ((k, v) :: tl) = (k, v) :: CleanSense.array tl from by
          simp [CleanSense.array, hv]] at h
        rcases List.mem_cons.mp h with rfl | htl
        · exact List.mem_cons_self _ _
        · exact List.mem_cons_of_mem _ (ih kv htl)

/-- The empty-array pass leaves no empty-array entry behind. -/
theorem cleanArray_no_empty (m : FilterMap) :
    ∀ kv ∈ CleanSense.array m, kv.2 ≠ FilterValue.arr [] := by
  induction m with
  | nil =>
      intro kv h
      simp [CleanSense.array] at h
  | cons hd tl ih =>
      intro kv h
      obtain ⟨k, v⟩ := hd
      by_cases hv : v = FilterValue.arr []
      · rw [show CleanSense.array ((k, v) :: tl) = CleanSense.array tl from by
          simp [CleanSense.array, hv]] at h
        exact ih kv h
      · rw [show CleanSense.array ((k, v) :: tl) = (k, v) :: CleanSense.array tl from by
          simp [CleanSense.array, hv]] at h
        rcases List.mem_cons.mp h with rfl | htl
        · exact hv
        · exact ih kv htl

/-- The empty-array pass is the identity on a map with no empty-array
entry. -/
theorem cleanArray_fixed (m : FilterMap)
    (hm : ∀ kv ∈ m, kv.2 ≠ FilterValue.arr []) :
    CleanSense.array m = m := by
  induction m with
  | nil => rfl
  | cons hd tl ih =>
      obtain ⟨k, v⟩ := hd
      have htl : CleanSense.array tl = tl :=
        ih (fun kv h => hm kv (List.mem_cons_of_mem _ h))
      have hv := hm (k, v) (List.mem_cons_self _ _)
      rw [show CleanSense.array ((k, v) :: tl) = (k, v) :: CleanSense.array tl from by
        simp [CleanSense.array, hv], htl]

/-- Two sentinel passes with non-array scalar sentinels commute: scalar
deletions target fixed distinct-or-equal values and array rewrites are
elementwise filters, which commute. -/
theorem cleanPass_comm (sv1 : FilterValue) (se1 : FilterElem)
    (sv2 : FilterValue) (se2 : FilterElem)
    (h1 : ∀ es, sv1 ≠ FilterValue.arr es) (h2 : ∀ es, sv2 ≠ FilterValue.arr es)
    (m : FilterMap) :
    cleanPass sv1 se1 (cleanPass sv2 se2 m) =
      cleanPass sv2 se2 (cleanPass sv1 se1 m) := by
  induction m with
  | nil => rfl
  | cons hd tl ih =>
      obtain ⟨k, v⟩ := hd
      by_cases hv1 : v = sv1
      · by_cases hv2 : v = sv2
        · have e2 : cleanPass sv2 se2 ((k, v) :: tl) = cleanPass sv2 se2 tl := by
            rw [hv2]
            exact cleanPass_cons_sent sv2 se2 k tl
          have e1 : cleanPass sv1 se1 ((k, v) :: tl) = cleanPass sv1 se1 tl := by
            rw [hv1]
            exact cleanPass_cons_sent sv1 se1 k tl
          rw [e2, e1, ih]
        · have e1 : cleanPass sv1 se1 ((k, v) :: tl) = cleanPass sv1 se1 tl := by
            rw [hv1]
            exact cleanPass_cons_sent sv1 se1 k tl
          have e2 : cleanPass sv2 se2 ((k, v) :: tl) = (k, v) :: cleanPass sv2 se2 tl :=
            cleanPass_cons_other sv2 se2 k v tl hv2
              (fun es h => (h1 es) (hv1 ▸ h))
          have e3 : cleanPass sv1 se1 ((k, v) :: cleanPass sv2 se2 tl) =
              cleanPass sv1 se1 (cleanPass sv2 se2 tl) := by
            rw [hv1]
            exact cleanPass_cons_sent sv1 se1 k _
          rw [e1, e2, e3, ih]
      · by_cases hv2 : v = sv2
        · have e2 : cleanPass sv2 se2 ((k, v) :: tl) = cleanPass sv2 se2 tl := by
            rw [hv2]
            exact cleanPass_cons_sent sv2 se2 k tl
          have e1 : cleanPass sv1 se1 ((k, v) :: tl) = (k, v) :: cleanPass sv1 se1 tl :=
            cleanPass_cons_other sv1 se1 k v tl hv1
              (fun es h => (h2 es) (hv2 ▸ h))
          have e3 : cleanPass sv2 se2 ((k, v) :: cleanPass sv1 se1 tl) =
              cleanPass sv2 se2 (cleanPass sv1 se1 tl) := by
            rw [hv2]
            exact cleanPass_cons_sent sv2 se2 k _
          rw [e2, e1, e3, ih]
        · cases v
          all_goals try
            (rw [cleanPass_cons_other sv2 se2 k _ tl hv2
                  (fun es h => FilterValue.noConfusion h),
                cleanPass_cons_other sv1 se1 k _ tl hv1
                  (fun es h => FilterValue.noConfusion h),
                cleanPass_cons_other sv1 se1 k _ _ hv1
                  (fun es h => FilterValue.noConfusion h),
                cleanPass_cons_other sv2 se2 k _ _ hv2
                  (fun es h => FilterValue.noConfusion h),
                ih])
          rename_i es
          rw [cleanPass_cons_arr sv2 se2 k es tl hv2,
              cleanPass_cons_arr sv1 se1 k es tl hv1,
              cleanPass_cons_arr sv1 se1 k _ _ (Ne.symm (h1 _)),
              cleanPass_cons_arr sv2 se2 k _ _ (Ne.symm (h2 _)),
              ih]
          rw [List.filter_filter, List.filter_filter]
          have hpq : ∀ e : FilterElem,
              ((e != se1) && (e != se2)) = ((e != se2) && (e != se1)) :=
            fun e => Bool.and_comm _ _
          rw [List.filter_congr (fun e _ => hpq e)]

/-- A timer not yet due does not fire while the event loop advances to
time t. -/
theorem fireDue_notDue (t ft cb : Nat) (kk : String) (fl : List (Nat × Nat))
    (h : t < ft) :
    fireDue t ⟨[⟨kk, ft, cb⟩], fl⟩ = ⟨[⟨kk, ft, cb⟩], fl⟩ := by
  have hd : (decide (ft ≤ t)) = false := decide_eq_false (Nat.not_le.mpr h)
  simp [fireDue, hd]

/-- Calling debounce for key k replaces the single pending timer for k. -/
theorem debounce_replaces (k : String) (cb d t ft cb0 : Nat) (fl : List (Nat × Nat)) :
    debounce k cb d t ⟨[⟨k, ft, cb0⟩], fl⟩ = ⟨[⟨k, t + d, cb⟩], fl⟩ := by
  simp [debounce]

/-- Coalescing invariant: with one pending timer for key k that fires
strictly after the next call, a well-spaced same-key call sequence ends
with exactly one new fired entry, that of the last call, and no pending
timer. -/
theorem runSchedules_coalesce_aux (k : String) (d : Nat) :
    ∀ (rest : List (Nat × Nat)) (t cb ft cb0 : Nat) (fl : List (Nat × Nat)),
      wellSpaced d ((t, cb) :: rest) = true →
      t < ft →
      runSchedules (sameKeyTrace k d ((t, cb) :: rest)) ⟨[⟨k, ft, cb0⟩], fl⟩ =
        ⟨[], fl ++ [((rest.getLastD (t, cb)).1 + d, (rest.getLastD (t, cb)).2)]⟩ := by
  intro rest
  induction rest with
  | nil =>
      intro t cb ft cb0 fl hw hlt
      show runSchedules [⟨t, k, cb, d⟩] ⟨[⟨k, ft, cb0⟩], fl⟩ = _
      rw [runSchedules, fireDue_notDue t ft cb0 k fl hlt, debounce_replaces]
      simp [runSchedules, flushAll, List.getLastD]
  | cons c2 rest2 ih =>
      intro t cb ft cb0 fl hw hlt
      obtain ⟨t2, cb2⟩ := c2
      have hw0 : t2 < t + d ∧ wellSpaced d ((t2, cb2) :: rest2) = true := by
        revert hw
        simp [wellSpaced]
        intro h1 h2 h3
        exact ⟨h2, h3⟩
      show runSchedules (⟨t, k, cb, d⟩ :: sameKeyTrace k d ((t2, cb2) :: rest2))
        ⟨[⟨k, ft, cb0⟩], fl⟩ = _
      rw [runSchedules, fireDue_notDue t ft cb0 k fl hlt, debounce_replaces]
      rw [ih t2 cb2 (t + d) cb fl hw0.2 hw0.1]
      rw [List.getLastD_cons]

/-! ## Claim theorems -/

/-- Claim C1, counterexample to the claim as stated: dispatching SetLimit
with caller-supplied payload page 5 against a state on page 7 yields page
1 (the DEFAULT_PAGE constant), not the payload page 5, in the commands-set
reducer. -/
theorem C1_counterexample :
    (DataGridReducer { page := some 7 }
        { commands := some [DataGridCommand.SetLimit], limit := some 20, page := some 5 }).page
      = some 1 ∧ ((some 1 : Option Int) ≠ some 5) := by
  constructor
  · rfl
  · decide

/-- Claim C1 as amended: for any command set containing a member of the
page-resetting set, the commands-set reducer forces the resulting page to
the fixed configured DEFAULT_PAGE (ignoring the payload page), after the
field-specific updates and exactly once; the single-command reducer
variant instead sets it to the caller-supplied action.page. -/
theorem C1_page_reset :
    (∀ (s : DataGridState) (a : DataGridAction) (cmds : List DataGridCommand),
      a.commands = some cmds →
      cmds.any (fun c => pageResettingCommands.contains c) = true →
      (DataGridReducer s a).page = some DEFAULT_PAGE) ∧
    (∀ (s a : SingleState), singleResets a.command = true →
      (DataGridReducerSingle s a).page = a.page) := by
  constructor
  · intro s a cmds hc hany
    cases cmds with
    | nil => simp at hany
    | cons c cs =>
        simp only [DataGridReducer, hc, hany]
        simp
  · intro s a h
    simp only [DataGridReducerSingle, h]
    simp

/-- Witness for C1_page_reset at concrete inputs: SetSort from page 9 with
payload page 4 lands on page 1 in the commands-set reducer and on page 4
in the single-command reducer. -/
theorem C1_page_reset_witness :
    (DataGridReducer { page := some 9 }
        { commands := some [DataGridCommand.SetSort], sort := some "n", page := some 4 }).page
      = some DEFAULT_PAGE ∧
    (DataGridReducerSingle { page := some 9 }
        { command := some DataGridCommand.SetSort, sort := some "n", page := some 4 }).page
      = some 4 :=
  ⟨C1_page_reset.1 _ _ [DataGridCommand.SetSort] rfl (by decide),
   C1_page_reset.2 _ _ (by decide)⟩

/-- Claim C2: the reducer has no case for ClearAll (it falls through the
switch default and is not in the page-resetting set), so dispatching
ClearAll returns the state unchanged except for the recorded command list;
in particular a fully populated state keeps page 3 instead of resetting to
the default 1. -/
theorem C2_clearall_ignored :
    (∀ s : DataGridState,
      DataGridReducer s { commands := some [DataGridCommand.ClearAll] } =
        { s with commands := some [DataGridCommand.ClearAll] }) ∧
    (DataGridReducer
        { page := some 3, limit := some 50, sort := some "name",
          order := some SortOrder.asc, filter := some [("a", FilterValue.str "x")] }
        { commands := some [DataGridCommand.ClearAll] }).page = some 3 ∧
    (3 : Int) ≠ DEFAULT_PAGE := by
  refine ⟨fun s => rfl, rfl, by decide⟩

/-- Claim C3: in the part_005 variant hasNextPage is exactly
page * limit < size and hasPrevPage is exactly page > 1; the
part_006/part_007 variant instead computes page < size, and diverges at
page 3, limit 10, size 25, where it answers true although
3 * 10 < 25 is false. -/
theorem C3_pagination_queries :
    (∀ (p l ip il sz : Int),
      hasNextPage (some p) (some l) ip il sz = decide (p * l < sz)) ∧
    (∀ (p ip : Int), hasPrevPage (some p) ip = decide (p > 1)) ∧
    hasNextPageAlt (some 3) 1 25 = true ∧
    hasNextPage (some 3) (some 10) 1 10 25 = false := by
  refine ⟨fun p l ip il sz => rfl, fun p ip => rfl, by decide, by decide⟩

/-- Claim C7: the four sanitizer passes, run in the order the DataGrid
effect runs them (null, undefined, string, array), are idempotent:
sanitizing an already-sanitized filter map changes nothing. -/
theorem C7_sanitize_idempotent (m : FilterMap) :
    sanitizeFilter (sanitizeFilter m) = sanitizeFilter m := by
  have hna : ∀ es, FilterValue.null ≠ FilterValue.arr es :=
    fun es h => FilterValue.noConfusion h
  have hua : ∀ es, FilterValue.undefined ≠ FilterValue.arr es :=
    fun es h => FilterValue.noConfusion h
  have hsa : ∀ es, FilterValue.str "" ≠ FilterValue.arr es :=
    fun es h => FilterValue.noConfusion h
  have hn1 : ∀ kv ∈ CleanSense.null m, entryClean .null .null kv.2 = true :=
    cleanPass_output_clean _ _ m hna
  have hn2 : ∀ kv ∈ CleanSense.undefined (CleanSense.null m),
      entryClean .null .null kv.2 = true :=
    cleanPass_preserves_clean _ _ _ _ _ hna hn1
  have hu2 : ∀ kv ∈ CleanSense.undefined (CleanSense.null m),
      entryClean .undefined .undefined kv.2 = true :=
    cleanPass_output_clean _ _ _ hua
  have hn3 : ∀ kv ∈ CleanSense.string (CleanSense.undefined (CleanSense.null m)),
      entryClean .null .null kv.2 = true :=
    cleanPass_preserves_clean _ _ _ _ _ hna hn2
  have hu3 : ∀ kv ∈ CleanSense.string (CleanSense.undefined (CleanSense.null m)),
      entryClean .undefined .undefined kv.2 = true :=
    cleanPass_preserves_clean _ _ _ _ _ hua hu2
  have hs3 : ∀ kv ∈ CleanSense.string (CleanSense.undefined (CleanSense.null m)),
      entryClean (.str "") (.str "") kv.2 = true :=
    cleanPass_output_clean _ _ _ hsa
  have hn4 : ∀ kv ∈ sanitizeFilter m, entryClean .null .null kv.2 = true :=
    fun kv h => hn3 kv (cleanArray_mem _ kv h)
  have hu4 : ∀ kv ∈ sanitizeFilter m, entryClean .undefined .undefined kv.2 = true :=
    fun kv h => hu3 kv (cleanArray_mem _ kv h)
  have hs4 : ∀ kv ∈ sanitizeFilter m, entryClean (.str "") (.str "") kv.2 = true :=
    fun kv h => hs3 kv (cleanArray_mem _ kv h)
  have hz : ∀ kv ∈ sanitizeFilter m, kv.2 ≠ FilterValue.arr [] :=
    cleanArray_no_empty _
  show CleanSense.array (CleanSense.string (CleanSense.undefined
    (CleanSense.null (sanitizeFilter m)))) = sanitizeFilter m
  rw [show CleanSense.null (sanitizeFilter m) = sanitizeFilter m from
        cleanPass_fixed _ _ _ hn4,
      show CleanSense.undefined (sanitizeFilter m) = sanitizeFilter m from
        cleanPass_fixed _ _ _ hu4,
      show CleanSense.string (sanitizeFilter m) = sanitizeFilter m from
        cleanPass_fixed _ _ _ hs4,
      cleanArray_fixed _ hz]

/-- Claim C8, counterexample to the claim as stated: on the filter map
with one key holding the array containing one empty string, running the
empty-array pass before the empty-string pass keeps the key (with an
empty array left behind), while the other order removes it: the passes
are not order-independent. -/
theorem C8_counterexample :
    CleanSense.string (CleanSense.array [("k", FilterValue.arr [FilterElem.str ""])]) ≠
      CleanSense.array (CleanSense.string [("k", FilterValue.arr [FilterElem.str ""])]) := by
  decide

/-- Claim C8 as amended: the three sentinel passes (null, undefined,
empty-string) are pairwise order-independent on every filter map; the
empty-array pass is order-dependent (see the counterexample) and must run
after the sentinel passes to remove the empty arrays they leave behind. -/
theorem C8_sentinel_passes_commute (m : FilterMap) :
    CleanSense.undefined (CleanSense.null m) = CleanSense.null (CleanSense.undefined m) ∧
    CleanSense.string (CleanSense.null m) = CleanSense.null (CleanSense.string m) ∧
    CleanSense.string (CleanSense.undefined m) = CleanSense.undefined (CleanSense.string m) :=
  ⟨cleanPass_comm FilterValue.undefined FilterElem.undefined FilterValue.null FilterElem.null
      (fun es h => FilterValue.noConfusion h) (fun es h => FilterValue.noConfusion h) m,
   cleanPass_comm (FilterValue.str "") (FilterElem.str "") FilterValue.null FilterElem.null
      (fun es h => FilterValue.noConfusion h) (fun es h => FilterValue.noConfusion h) m,
   cleanPass_comm (FilterValue.str "") (FilterElem.str "") FilterValue.undefined FilterElem.undefined
      (fun es h => FilterValue.noConfusion h) (fun es h => FilterValue.noConfusion h) m⟩

/-- Claim C9: from an absent order, three successive toggleOrder
dispatches yield asc, desc, absent in that exact sequence, while the sort
column (whether set or not) is untouched throughout. -/
theorem C9_toggle_cycle (s : SingleState) (rp : Bool) (ip : Int)
    (h : s.order = Option.none) :
    (toggleOrderOp rp ip s).order = some SortOrder.asc ∧
    (toggleOrderOp rp ip (toggleOrderOp rp ip s)).order = some SortOrder.desc ∧
    (toggleOrderOp rp ip (toggleOrderOp rp ip (toggleOrderOp rp ip s))).order = Option.none ∧
    (toggleOrderOp rp ip s).sort = s.sort ∧
    (toggleOrderOp rp ip (toggleOrderOp rp ip s)).sort = s.sort ∧
    (toggleOrderOp rp ip (toggleOrderOp rp ip (toggleOrderOp rp ip s))).sort = s.sort := by
  simp [toggleOrderOp_eq, nextOrderOf, h]

/-- Witness for C9_toggle_cycle: a concrete state with a sort column set
and no order cycles asc, desc, absent. -/
theorem C9_toggle_cycle_witness :
    (toggleOrderOp true 1 { order := Option.none, sort := some "name", page := some 4 }).order
      = some SortOrder.asc ∧
    (toggleOrderOp true 1 (toggleOrderOp true 1
        { order := Option.none, sort := some "name", page := some 4 })).order
      = some SortOrder.desc ∧
    (toggleOrderOp true 1 (toggleOrderOp true 1 (toggleOrderOp true 1
        { order := Option.none, sort := some "name", page := some 4 }))).order
      = Option.none := by
  have h := C9_toggle_cycle { order := Option.none, sort := some "name", page := some 4 }
    true 1 rfl
  exact ⟨h.1, h.2.1, h.2.2.1⟩

/-- Claim C4: for delay d > 0, a sequence of debounce calls for one key,
each arriving before the previous timer fires, fires exactly one callback
— that of the last call, d ms after it — and removes the key from the map
(no pending timer remains), so a later schedule for the key starts
fresh. -/
theorem C4_debounce_coalesces (k : String) (d t cb : Nat)
    (rest : List (Nat × Nat)) (hd : 0 < d)
    (hw : wellSpaced d ((t, cb) :: rest) = true) :
    runSchedules (sameKeyTrace k d ((t, cb) :: rest)) ⟨[], []⟩ =
      ⟨[], [((rest.getLastD (t, cb)).1 + d, (rest.getLastD (t, cb)).2)]⟩ := by
  cases rest with
  | nil =>
      show runSchedules [⟨t, k, cb, d⟩] ⟨[], []⟩ = _
      simp [runSchedules, fireDue, debounce, flushAll, List.getLastD]
  | cons c2 rest2 =>
      obtain ⟨t2, cb2⟩ := c2
      have hw0 : t2 < t + d ∧ wellSpaced d ((t2, cb2) :: rest2) = true := by
        revert hw
        simp [wellSpaced]
        intro h1 h2 h3
        exact ⟨h2, h3⟩
      show runSchedules (⟨t, k, cb, d⟩ :: sameKeyTrace k d ((t2, cb2) :: rest2)) ⟨[], []⟩ = _
      rw [runSchedules]
      have hstep : debounce k cb d t (fireDue t ⟨[], []⟩) = ⟨[⟨k, t + d, cb⟩], []⟩ := by
        simp [fireDue, debounce]
      rw [hstep, runSchedules_coalesce_aux k d rest2 t2 cb2 (t + d) cb [] hw0.2 hw0.1]
      rw [List.getLastD_cons]
      simp

/-- Witness for C4_debounce_coalesces: three schedules for key name with
delay 300 at times 0, 100, 200 fire only the third callback, at 500. -/
theorem C4_debounce_coalesces_witness :
    runSchedules (sameKeyTrace "name" 300 [(0, 1), (100, 2), (200, 3)]) ⟨[], []⟩ =
      ⟨[], [(500, 3)]⟩ :=
  (C4_debounce_coalesces "name" 300 0 1 [(100, 2), (200, 3)] (by decide) (by decide)).trans
    (by decide)

/-- Claim C5, counterexample to the claim as stated: the source keeps ONE
module-level DEBOUNCE_HASH_MAP for the whole process, so when widget
instance A schedules callback 1 for key name at time 0 (delay 300) and an
independent widget instance B schedules callback 2 for the same key at
time 100, both calls go through the shared map: the run fires only B's
callback at 400, and A's callback 1 never fires — B's schedule cancelled
A's pending timer, refuting that cross-instance cancellation never
happens. -/
theorem C5_counterexample :
    (runSchedules (sameKeyTrace "name" 300 [(0, 1), (100, 2)]) ⟨[], []⟩).fired = [(400, 2)] ∧
    ¬ (1 ∈ ((runSchedules (sameKeyTrace "name" 300 [(0, 1), (100, 2)]) ⟨[], []⟩).fired.map
        Prod.snd)) := by
  decide

/-- Claim C5 as amended: the key-to-timer mapping is a single
process-wide, module-level map shared by every widget instance; a
schedule for key k from any caller cancels the pending timer any other
caller registered for k within its window, leaving only the later
callback to fire. -/
theorem C5_shared_map_cancels (k : String) (cb1 cb2 d t1 t2 : Nat)
    (h1 : t1 ≤ t2) (h2 : t2 < t1 + d) :
    runSchedules (sameKeyTrace k d [(t1, cb1), (t2, cb2)]) ⟨[], []⟩ =
      ⟨[], [(t2 + d, cb2)]⟩ := by
  show runSchedules (⟨t1, k, cb1, d⟩ :: sameKeyTrace k d [(t2, cb2)]) ⟨[], []⟩ = _
  rw [runSchedules]
  have hstep : debounce k cb1 d t1 (fireDue t1 ⟨[], []⟩) = ⟨[⟨k, t1 + d, cb1⟩], []⟩ := by
    simp [fireDue, debounce]
  rw [hstep, runSchedules_coalesce_aux k d [] t2 cb2 (t1 + d) cb1 [] rfl h2]
  simp [List.getLastD]

/-- Witness for C5_shared_map_cancels: two same-key schedules from
independent callers at times 0 and 50 with delay 200 leave only the
second callback, fired at 250. -/
theorem C5_shared_map_cancels_witness :
    runSchedules (sameKeyTrace "q" 200 [(0, 7), (50, 8)]) ⟨[], []⟩ =
      ⟨[], [(250, 8)]⟩ :=
  (C5_shared_map_cancels "q" 7 8 200 0 50 (by decide) (by decide)).trans (by decide)

/-- Claim C6: extractChangedKey returns the first key of next, in
insertion order, whose value differs from previous (strict equality for
non-arrays; for two arrays, differing length or non-identical reference),
never reports keys absent from next, returns b when b is added, returns
null when a key is only removed, and returns the first key of next when
previous is absent. -/
theorem C6_change_detector :
    (∀ prev next : DepMap,
      extractChangedKey (some prev) next =
        (next.find? (fun kv => specChangedValue (getProp prev kv.1) kv.2)).map (fun kv => kv.1)) ∧
    (∀ next : DepMap,
      extractChangedKey Option.none next = next.head?.map (fun kv => kv.1)) ∧
    (∀ prev next : DepMap,
      (extractChangedKey (some prev) next).all
        (fun k => (next.map Prod.fst).contains k) = true) ∧
    extractChangedKey (some [("a", DepValue.num 1)])
      [("a", DepValue.num 1), ("b", DepValue.num 2)] = some "b" ∧
    extractChangedKey (some [("a", DepValue.num 1), ("b", DepValue.num 2)])
      [("a", DepValue.num 1)] = Option.none :=
  ⟨fun prev next => extractChangedKeyGo_eq_find prev next,
   fun _ => rfl,
   fun prev next => extractChangedKey_key_mem prev next,
   by decide, by decide⟩

/-- Claim C10: nextPage and prevPage dispatch SetPage only when their
guard holds; prevPage at page 1 or below leaves the state unchanged; and
starting from any page at least 1, neither operation can produce a page
below 1. -/
theorem C10_page_guards :
    (∀ (ip : Int) (s : SingleState),
      hasPrevPage s.page ip = false → prevPageOp ip s = s) ∧
    (∀ (ip il sz : Int) (s : SingleState),
      hasNextPage s.page s.limit ip il sz = false → nextPageOp ip il sz s = s) ∧
    (∀ (ip : Int) (s : SingleState) (p : Int),
      s.page = some p → p ≤ 1 → prevPageOp ip s = s) ∧
    (∀ (ip : Int) (s : SingleState) (p : Int),
      s.page = some p → 1 ≤ p →
      ∃ q : Int, (prevPageOp ip s).page = some q ∧ 1 ≤ q) ∧
    (∀ (ip il sz : Int) (s : SingleState) (p : Int),
      s.page = some p → 1 ≤ p →
      ∃ q : Int, (nextPageOp ip il sz s).page = some q ∧ 1 ≤ q) := by
  refine ⟨?_, ?_, ?_, ?_, ?_⟩
  · intro ip s h
    simp [prevPageOp, h]
  · intro ip il sz s h
    simp [nextPageOp, h]
  · intro ip s p hp hle
    have h : hasPrevPage s.page ip = false := by
      simp [hasPrevPage, hp]
      omega
    simp [prevPageOp, h]
  · intro ip s p hp hge
    by_cases h : hasPrevPage s.page ip = true
    · have hgt : p > 1 := by
        simpa [hasPrevPage, hp] using h
      refine ⟨p - 1, ?_, by omega⟩
      rw [hp] at h
      simp [prevPageOp, h, setPageOp_eq, hp]
    · have hf : hasPrevPage s.page ip = false := by
        revert h
        cases hasPrevPage s.page ip <;> simp
      refine ⟨p, ?_, hge⟩
      rw [hp] at hf
      simp [prevPageOp, hf, hp]
  · intro ip il sz s p hp hge
    by_cases h : hasNextPage s.page s.limit ip il sz = true
    · refine ⟨p + 1, ?_, by omega⟩
      rw [hp] at h
      simp [nextPageOp, h, setPageOp_eq, hp]
    · have hf : hasNextPage s.page s.limit ip il sz = false := by
        revert h
        cases hasNextPage s.page s.limit ip il sz <;> simp
      refine ⟨p, ?_, hge⟩
      rw [hp] at hf
      simp [nextPageOp, hf, hp]

/-- Witness for C10_page_guards: prevPage at page 1 is a no-op and
nextPage from page 2 (limit 10, size 25) stays at a page of at least 1. -/
theorem C10_page_guards_witness :
    prevPageOp 1 { page := some 1, sort := some "x" } = { page := some 1, sort := some "x" } ∧
    (∃ q : Int, (nextPageOp 1 10 25 { page := some 2 }).page = some q ∧ 1 ≤ q) :=
  ⟨C10_page_guards.1 1 _ (by decide),
   C10_page_guards.2.2.2.2 1 10 25 { page := some 2 } 2 rfl (by decide)⟩

end Datagrid
